import Mathlib

/-! Shallow embedding of the FourierListener audio-fingerprinting core
(`fingerprint.py`, `storage.py`, `recognise.py`).

Real-valued audio quantities (spectrogram powers, frequency values, time
offsets) are modelled as rationals.  Python's builtin `hash` on tuples and
`uuid.uuid5(NAMESPACE_OID, ...).int` are modelled as abstract function
parameters (`pyHash`, `uuidInt`): their outputs are opaque inputs to the
algorithms under study, and every definition that uses them receives the
same parameter, so intra-program agreement is still faithfully captured.
The sqlite tables `hash` and `song_info` are modelled as in-memory lists
of rows in insertion order; a `SELECT ... WHERE hash IN (...)` is the
corresponding list filter in table order. -/

/-- Value of `settings.PEAK_BOX_SIZE`. -/
def PEAK_BOX_SIZE : ℕ := 30

/-- Value of `settings.POINT_EFFICIENCY` (the literal 0.8, modelled exactly). -/
def POINT_EFFICIENCY : ℚ := 4/5

/-- Value of `settings.TARGET_START` (0.05 seconds). -/
def TARGET_START : ℚ := 1/20

/-- Value of `settings.TARGET_T` (1.8 seconds). -/
def TARGET_T : ℚ := 9/5

/-- Value of `settings.TARGET_F` (4000 Hz). -/
def TARGET_F : ℚ := 4000

/-- Python `int(x)` applied to a real value: truncation toward zero. -/
def pyTrunc (q : ℚ) : ℤ := if 0 ≤ q then ⌊q⌋ else ⌈q⌉

/-- A peak resolved to values by `idxs_to_tf_pairs`: `(frequency value, time value)`. -/
abbrev Point := ℚ × ℚ

/-- Embedding of `fingerprint.hash_point_pair`:
`hash((p1[0], p2[0], p2[1]-p2[1]))`.  `pyHash` abstracts Python's builtin
tuple hash; the tuple it is applied to is modelled exactly, including the
`p2[1]-p2[1]` third component. -/
def hash_point_pair (pyHash : ℚ × ℚ × ℚ → ℤ) (p1 p2 : Point) : ℤ :=
  pyHash (p1.1, p2.1, p2.2 - p2.2)

/-- Embedding of `fingerprint.target_zone`.  The generator is modelled as the
filtered list, in order: a point is skipped iff
`point[0] < y_min or point[0] > y_max` or `point[1] < x_min or point[1] > x_max`. -/
def target_zone (anchor : Point) (points : List Point) (width height t : ℚ) :
    List Point :=
  let xMin := anchor.2 + t
  let xMax := xMin + width
  let yMin := anchor.1 - height * (1/2)
  let yMax := yMin + height
  points.filter fun p =>
    !(decide (p.1 < yMin) || decide (yMax < p.1) ||
      decide (p.2 < xMin) || decide (xMax < p.2))

/-- The stringified song identifier `str(uuid.uuid5(uuid.NAMESPACE_OID, filename).int)`,
computed identically in `fingerprint.hash_points` and `storage.song_in_db`. -/
def song_id_str (uuidInt : String → ℕ) (filename : String) : String :=
  toString (uuidInt filename)

/-- Embedding of `fingerprint.hash_points`: for every anchor peak, pair it with
every peak of its target zone and emit `(hash, anchor time offset, song_id)`. -/
def hash_points (pyHash : ℚ × ℚ × ℚ → ℤ) (uuidInt : String → ℕ)
    (points : List Point) (filename : String) : List (ℤ × ℚ × String) :=
  let songId := song_id_str uuidInt filename
  points.flatMap fun anchor =>
    (target_zone anchor points TARGET_T TARGET_F TARGET_START).map fun target =>
      (hash_point_pair pyHash anchor target, anchor.2, songId)

/-- A spectrogram power matrix `Sxx` of height `H` (frequency rows) and width
`W` (time columns); `val` gives the power of each in-range cell. -/
structure Spectrogram where
  H : ℕ
  W : ℕ
  val : ℕ → ℕ → ℚ

/-- Cell access with the zero padding of `maximum_filter(..., mode='constant', cval=0.0)`. -/
def getv (S : Spectrogram) (y x : ℤ) : ℚ :=
  if 0 ≤ y ∧ y < (S.H : ℤ) ∧ 0 ≤ x ∧ x < (S.W : ℤ) then S.val y.toNat x.toNat else 0

/-- The 1-d offsets of the scipy `maximum_filter` footprint for `size = PEAK_BOX_SIZE`:
`k - size // 2` for `k < size` (for the even size 30 this is -15..14). -/
def winOff : List ℤ :=
  (List.range PEAK_BOX_SIZE).map fun k => (k : ℤ) - (PEAK_BOX_SIZE / 2 : ℕ)

/-- All (zero-padded) values inside the `PEAK_BOX_SIZE × PEAK_BOX_SIZE` footprint
centred (in the scipy sense) at cell `(y, x)`. -/
def windowVals (S : Spectrogram) (y x : ℕ) : List ℚ :=
  winOff.flatMap fun dy => winOff.map fun dx => getv S ((y : ℤ) + dy) ((x : ℤ) + dx)

/-- Embedding of `data_max = maximum_filter(Sxx, size=PEAK_BOX_SIZE, mode='constant', cval=0.0)`
at one cell: the maximum of the footprint values. -/
def dataMax (S : Spectrogram) (y x : ℕ) : ℚ :=
  match windowVals S y x with
  | [] => 0
  | v :: vs => vs.foldl max v

/-- Embedding of `peak_goodmask.nonzero()`: the cells with `Sxx == data_max`,
in row-major (numpy C) order. -/
def peakCells (S : Spectrogram) : List (ℕ × ℕ) :=
  (List.range S.H).flatMap fun y =>
    ((List.range S.W).filter fun x => decide (S.val y x = dataMax S y x)).map
      fun x => (y, x)

/-- Embedding of `peak_target = int((total / (PEAK_BOX_SIZE**2)) * POINT_EFFICIENCY)`. -/
def peak_target (S : Spectrogram) : ℕ :=
  (pyTrunc (((S.H * S.W : ℕ) : ℚ) / (PEAK_BOX_SIZE : ℚ) ^ 2 * POINT_EFFICIENCY)).toNat

/-- Comparison "the power of `a` is at least the power of `b`"; sorting `peakCells`
by it models `peak_values.argsort()[::-1]` (numpy's unstable argsort leaves the
relative order of equal-valued peaks unspecified, so any descending-by-value
order is a faithful model). -/
def valGE (S : Spectrogram) (a b : ℕ × ℕ) : Prop := S.val b.1 b.2 ≤ S.val a.1 a.2

instance (S : Spectrogram) : DecidableRel (valGE S) :=
  fun a b => inferInstanceAs (Decidable (_ ≤ _))

/-- Embedding of `fingerprint.find_peaks`: rank the local-maximum cells by
descending power and keep the first `peak_target` of them. -/
def find_peaks (S : Spectrogram) : List (ℕ × ℕ) :=
  (List.insertionSort (valGE S) (peakCells S)).take (peak_target S)

/-- One row of the sqlite `hash` table: `(hash, offset, song_id)`. -/
abbrev HashRow := ℤ × ℚ × String

/-- One row of the sqlite `song_info` table: `((artist, album, title), song_id)`. -/
abbrev SongRow := (String × String × String) × String

/-- The persistent store: the two sqlite tables, as lists of rows in insertion order. -/
structure DB where
  hashTbl : List HashRow
  infoTbl : List SongRow

/-- The `(artist, album, title)` value produced by the tag-reading collaborator;
each component may be absent (`None`). -/
abbrev TagInfo := Option String × Option String × Option String

/-- Embedding of `storage.song_in_db`: is there a `song_info` row whose
`song_id` equals `str(uuid5(NAMESPACE_OID, filename).int)`? -/
def song_in_db (uuidInt : String → ℕ) (filename : String) (db : DB) : Bool :=
  db.infoTbl.any fun row => row.2 == song_id_str uuidInt filename

/-- Embedding of `[i if i is not None else "Unknown" for i in song_info]`. -/
def substUnknown (si : TagInfo) : String × String × String :=
  (si.1.getD "Unknown", si.2.1.getD "Unknown", si.2.2.getD "Unknown")

/-- Embedding of `storage.store_song`.  `if len(hashes) < 1: return` is the `[]`
branch.  When `song_info` is `None` and `hashes` is non-empty, the list
comprehension iterates over `None` and Python raises `TypeError`, modelled as
`Except.error`.  Otherwise all hash rows are appended and one `song_info` row
keyed by `hashes[0][2]` is appended, in one commit. -/
def store_song (hashes : List HashRow) (song_info : Option TagInfo) (db : DB) :
    Except String DB :=
  match hashes with
  | [] => .ok db
  | h :: _ =>
    match song_info with
    | none => .error "TypeError"
    | some si => .ok { hashTbl := db.hashTbl ++ hashes
                       infoTbl := db.infoTbl ++ [(substUnknown si, h.2.2)] }

/-- Assignment `d[k] = v` on a Python dict modelled as an association list in
first-insertion key order: replace the value if the key exists, else append. -/
def dictInsert (m : List (ℤ × ℚ)) (k : ℤ) (v : ℚ) : List (ℤ × ℚ) :=
  match m with
  | [] => [(k, v)]
  | (k0, v0) :: rest => if k0 == k then (k, v) :: rest else (k0, v0) :: dictInsert rest k v

/-- Lookup `d[k]` on the association-list dict model. -/
def dictGet (m : List (ℤ × ℚ)) (k : ℤ) : Option ℚ :=
  match m with
  | [] => none
  | (k0, v0) :: rest => if k0 == k then some v0 else dictGet rest k

/-- Embedding of the loop `for h, t, _ in hashes: h_dict[h] = t`:
later records overwrite earlier ones that share a hash value. -/
def buildHDict (hashes : List HashRow) : List (ℤ × ℚ) :=
  hashes.foldl (fun m p => dictInsert m p.1 p.2.1) []

/-- Embedding of `result_dict[song_id].append(pair)` on a `defaultdict(list)`:
keys appear in first-insertion order, values in append order. -/
def appendMatch (acc : List (String × List (ℚ × ℚ))) (sid : String) (pr : ℚ × ℚ) :
    List (String × List (ℚ × ℚ)) :=
  match acc with
  | [] => [(sid, [pr])]
  | (s, l) :: rest =>
    if s == sid then (s, l ++ [pr]) :: rest else (s, l) :: appendMatch rest sid pr

/-- Embedding of `storage.get_matches` (its `threshold` parameter is unused by
the source body).  The SQL `SELECT hash, offset, song_id FROM hash WHERE hash
IN (...)` is the filter of the hash table by membership of the query hash
values (sqlite evaluates `IN ()` over an empty list as false).  The `.getD 0`
default of the dict lookup is unreachable: every selected row's hash occurs in
the query list, so the key is present (Python would raise `KeyError` otherwise). -/
def get_matches (hashes : List HashRow) (db : DB) : List (String × List (ℚ × ℚ)) :=
  let hDict := buildHDict hashes
  let results := db.hashTbl.filter fun r => hashes.any fun h => h.1 == r.1
  results.foldl (fun acc r => appendMatch acc r.2.2 (r.2.1, (dictGet hDict r.1).getD 0)) []

/-- Embedding of `storage.get_info_for_song_id`: a point lookup; called with
`None` (the SQL parameter is NULL) it selects nothing. -/
def get_info_for_song_id (song_id : Option String) (db : DB) :
    Option (String × String × String) :=
  match song_id with
  | none => none
  | some sid => (db.infoTbl.find? fun row => row.2 == sid).map (·.1)

/-- The list `tks = list(map(lambda x: x[0] - x[1], offsets))` of `recognise.score_match`. -/
def deltas (offsets : List (ℚ × ℚ)) : List ℚ := offsets.map fun x => x.1 - x.2

/-- Python `min` over the non-empty list `t :: rest`. -/
def listMin (t : ℚ) (rest : List ℚ) : ℚ := rest.foldl min t

/-- Python `max` over the non-empty list `t :: rest`. -/
def listMax (t : ℚ) (rest : List ℚ) : ℚ := rest.foldl max t

/-- The `k`-th element of `np.arange(lo, hi + 0.5 + 1, 0.5)`: `lo + k * 0.5`. -/
def edgeQ (lo : ℤ) (k : ℕ) : ℚ := (lo : ℚ) + (k : ℚ) * (1/2)

/-- Length of `np.arange(lo, hi + 0.5 + 1, 0.5)` for integers `lo ≤ hi`:
the `k` with `lo + k * 0.5 < hi + 1.5`, i.e. `2*(hi - lo) + 3` edges. -/
def numEdges (lo hi : ℤ) : ℕ := (2 * (hi - lo) + 3).toNat

/-- Membership of a value in bin `i` of `np.histogram` with the edges
`edgeQ lo 0, ..., edgeQ lo (numEdges lo hi - 1)`: each bin is half-open
on the right except the last, which is closed. -/
def inBin (lo hi : ℤ) (i : ℕ) (x : ℚ) : Bool :=
  decide (edgeQ lo i ≤ x) &&
    (if i = numEdges lo hi - 2 then decide (x ≤ edgeQ lo (i + 1))
     else decide (x < edgeQ lo (i + 1)))

/-- The bin counts `hist` returned by `np.histogram(tks, bins=np.arange(lo, hi + 1.5, 0.5))`. -/
def histCounts (lo hi : ℤ) (tks : List ℚ) : List ℕ :=
  (List.range (numEdges lo hi - 1)).map fun i => (tks.filter (inBin lo hi i)).length

/-- Embedding of `recognise.score_match`: histogram the offset deltas with
0.5-wide bins running from `int(min(tks))` to `int(max(tks)) + 1.5` (exclusive)
and return the largest bin count.  On an empty list Python's `min` raises;
`best_match` only ever passes non-empty lists, and the `[]` branch returns the
junk value 0. -/
def score_match (offsets : List (ℚ × ℚ)) : ℕ :=
  match deltas offsets with
  | [] => 0
  | t :: rest =>
    let lo := pyTrunc (listMin t rest)
    let hi := pyTrunc (listMax t rest)
    (histCounts lo hi (t :: rest)).foldl max 0

/-- The loop of `recognise.best_match` over the remaining items, carrying
`matched_song` and `best_score`; the first branch is the
`if len(offsets) < best_score: continue` skip. -/
def best_match_go : List (String × List (ℚ × ℚ)) → Option String → ℕ → Option String
  | [], matched, _ => matched
  | (sid, offsets) :: rest, matched, best =>
    if offsets.length < best then best_match_go rest matched best
    else
      let score := score_match offsets
      if best < score then best_match_go rest (some sid) score
      else best_match_go rest matched best

/-- Embedding of `recognise.best_match`: iterate the `MatchSet` in insertion
order, starting from `matched_song = None`, `best_score = 0`. -/
def best_match (ms : List (String × List (ℚ × ℚ))) : Option String :=
  best_match_go ms none 0

/-- Variant of `best_match` written from the spec's words, with no skip:
score every song of the `MatchSet`. -/
def best_match_naive_go : List (String × List (ℚ × ℚ)) → Option String → ℕ → Option String
  | [], matched, _ => matched
  | (sid, offsets) :: rest, matched, best =>
    let score := score_match offsets
    if best < score then best_match_naive_go rest (some sid) score
    else best_match_naive_go rest matched best

/-- The naive scorer of every song, for comparison with `best_match`. -/
def best_match_naive (ms : List (String × List (ℚ × ℚ))) : Option String :=
  best_match_naive_go ms none 0

/-- What `recognise.recognise_song` prints at its end: either the matched
song's info tuple, or the literal no-result message. -/
inductive Printed where
  | info : (String × String × String) → Printed
  | noResult : Printed
deriving DecidableEq

/-- Embedding of the tail of `recognise.recognise_song`, from the fingerprint
result on (file decoding and fingerprinting are upstream of the logic under
study, so the hash list computed by `fingerprint_file` is the input here).
`return print(info)` prints the info tuple and returns `print`'s result
`None`; the other path prints "Did not find a result" and returns
`matched_song`.  The returned pair is (what was printed, the Python return
value). -/
def recognise_song (hashes : List HashRow) (db : DB) : Printed × Option String :=
  let ms := get_matches hashes db
  let matched_song := best_match ms
  let info := get_info_for_song_id matched_song db
  match info with
  | some i => (Printed.info i, none)
  | none => (Printed.noResult, matched_song)

/-- The ID3 tag object returned by `TinyTag.get`, with the four fields
`recognise.get_song_info` reads; each may be `None`. -/
structure Tag where
  artist : Option String
  albumartist : Option String
  album : Option String
  title : Option String

/-- Embedding of `recognise.get_song_info`:
`artist = tag.artist if tag.albumartist is None else tag.albumartist;
return print((artist, tag.album, tag.title))`.  The first component is the
tuple passed to `print`; the second is the function's return value, which is
`print`'s result, i.e. always `None`. -/
def get_song_info (tag : Tag) : TagInfo × Option TagInfo :=
  let artist := match tag.albumartist with
    | none => tag.artist
    | some a => some a
  ((artist, tag.album, tag.title), none)

/-- Embedding of `recognise.register_song` (the lock/`NameError` fallback both
execute the same `store_song(hashes, song_info)` call, so the lock handling is
elided): skip if the path is already registered, else fingerprint and store,
passing `get_song_info`'s return value as `song_info`. -/
def register_song (pyHash : ℚ × ℚ × ℚ → ℤ) (uuidInt : String → ℕ) (tag : Tag)
    (points : List Point) (filename : String) (db : DB) : Except String DB :=
  if song_in_db uuidInt filename db then .ok db
  else
    let hashes := hash_points pyHash uuidInt points filename
    let song_info := (get_song_info tag).2
    store_song hashes song_info db

/-! Helper lemmas shared by several claim theorems. -/

theorem le_foldl_max {α : Type} [LinearOrder α] (l : List α) (init : α) :
    init ≤ l.foldl max init ∧ ∀ x ∈ l, x ≤ l.foldl max init := by
  induction l generalizing init with
  | nil => simp
  | cons a l ih =>
    refine ⟨le_trans (le_max_left init a) (ih (max init a)).1, ?_⟩
    intro x hx
    rcases List.mem_cons.mp hx with rfl | hx
    · exact le_trans (le_max_right init x) (ih (max init x)).1
    · exact (ih (max init a)).2 x hx

theorem foldl_max_le {α : Type} [LinearOrder α] (l : List α) (init n : α)
    (h0 : init ≤ n) (h : ∀ x ∈ l, x ≤ n) : l.foldl max init ≤ n := by
  induction l generalizing init with
  | nil => exact h0
  | cons a l ih =>
    exact ih (max init a) (max_le h0 (h a (List.mem_cons_self a l)))
      fun x hx => h x (List.mem_cons_of_mem a hx)

theorem foldl_min_le {α : Type} [LinearOrder α] (l : List α) (init : α) :
    l.foldl min init ≤ init ∧ ∀ x ∈ l, l.foldl min init ≤ x := by
  induction l generalizing init with
  | nil => simp
  | cons a l ih =>
    refine ⟨le_trans (ih (min init a)).1 (min_le_left init a), ?_⟩
    intro x hx
    rcases List.mem_cons.mp hx with rfl | hx
    · exact le_trans (ih (min init x)).1 (min_le_right init x)
    · exact (ih (min init a)).2 x hx

/-- Claim C1: in `hash_point_pair`, the third component of the hashed tuple is
always zero, so the hash depends only on the anchor frequency `p1[0]` and the
target frequency `p2[0]`, not on either time value. -/
theorem C1_hash_point_pair_time_independent :
    ∀ (pyHash : ℚ × ℚ × ℚ → ℤ) (p1 p2 : Point),
      hash_point_pair pyHash p1 p2 = pyHash (p1.1, p2.1, 0) ∧
      ∀ t1 t2 : ℚ,
        hash_point_pair pyHash (p1.1, t1) (p2.1, t2) = hash_point_pair pyHash p1 p2 := by
  intro pyHash p1 p2
  refine ⟨by simp [hash_point_pair], fun t1 t2 => by simp [hash_point_pair]⟩

/-- Claim C3: `get_matches` on an empty query hash list returns the empty
`MatchSet` (no exception is modelled: sqlite accepts the generated `IN ()`),
and the recognition pipeline then prints the no-result message and returns
`None`. -/
theorem C3_empty_query_no_match :
    ∀ db : DB,
      get_matches [] db = [] ∧ recognise_song [] db = (Printed.noResult, none) := by
  intro db
  have h1 : get_matches [] db = [] := by
    unfold get_matches
    simp
  refine ⟨h1, ?_⟩
  unfold recognise_song
  rw [h1]
  rfl

/-- Claim C4: `get_song_info` returns `print(...)`'s result, i.e. `None`, for
every tag object, and therefore `register_song` always passes `None` as the
`song_info` argument of `store_song` when it stores at all. -/
theorem C4_get_song_info_returns_none :
    ∀ (tag : Tag) (pyHash : ℚ × ℚ × ℚ → ℤ) (uuidInt : String → ℕ)
      (points : List Point) (filename : String) (db : DB),
      (get_song_info tag).2 = none ∧
      register_song pyHash uuidInt tag points filename db =
        (if song_in_db uuidInt filename db then .ok db
         else store_song (hash_points pyHash uuidInt points filename) none db) := by
  intro tag pyHash uuidInt points filename db
  exact ⟨rfl, rfl⟩

/-- Claim C9: `store_song` with an empty hash list writes nothing and returns
without error (and a peak list of zero peaks produces zero hash records, so
such a registration is a no-op); with a non-empty hash list and a song_info
tuple it appends all hash rows and exactly one `song_info` row keyed by the
song id of the first hash record. -/
theorem C9_store_song_empty_noop_nonempty_inserts :
    ∀ (pyHash : ℚ × ℚ × ℚ → ℤ) (uuidInt : String → ℕ) (filename : String)
      (si : TagInfo) (db : DB) (hashes : List HashRow) (h : HashRow)
      (hs : List HashRow),
      hash_points pyHash uuidInt [] filename = [] ∧
      store_song [] (some si) db = .ok db ∧
      store_song [] none db = .ok db ∧
      (hashes = h :: hs →
        store_song hashes (some si) db =
          .ok { hashTbl := db.hashTbl ++ hashes
                infoTbl := db.infoTbl ++ [(substUnknown si, h.2.2)] }) := by
  intro pyHash uuidInt filename si db hashes h hs
  refine ⟨rfl, rfl, rfl, ?_⟩
  rintro rfl
  rfl

/-- Witness for C9 at a concrete one-record hash list and empty database. -/
theorem C9_witness :
    store_song [((5:ℤ), (1:ℚ), "sid")] (some (some "A", some "B", some "T")) ⟨[], []⟩ =
      .ok { hashTbl := ([] : List HashRow) ++ [((5:ℤ), (1:ℚ), "sid")]
            infoTbl := ([] : List SongRow) ++
              [(substUnknown (some "A", some "B", some "T"), "sid")] } :=
  (C9_store_song_empty_noop_nonempty_inserts (fun _ => 0) (fun _ => 0) "f"
    (some "A", some "B", some "T") ⟨[], []⟩ [((5:ℤ), (1:ℚ), "sid")]
    ((5:ℤ), (1:ℚ), "sid") []).2.2.2 rfl

/-- The query offset of the last query record carrying hash value `h` (the
behaviour `get_matches` actually implements for duplicated hash values). -/
def lastOffsetOf (hashes : List HashRow) (h : ℤ) : Option ℚ :=
  match hashes with
  | [] => none
  | p :: rest =>
    match lastOffsetOf rest h with
    | some v => some v
    | none => if p.1 == h then some p.2.1 else none

/-- `get_matches` as the amended spec words it: identical, except that the
dict built by the overwrite loop is replaced by the last-record lookup. -/
def get_matches_lastdup (hashes : List HashRow) (db : DB) :
    List (String × List (ℚ × ℚ)) :=
  let results := db.hashTbl.filter fun r => hashes.any fun h => h.1 == r.1
  results.foldl
    (fun acc r => appendMatch acc r.2.2 (r.2.1, (lastOffsetOf hashes r.1).getD 0)) []

theorem dictGet_dictInsert (m : List (ℤ × ℚ)) (k0 k : ℤ) (v : ℚ) :
    dictGet (dictInsert m k0 v) k = if k0 == k then some v else dictGet m k := by
  induction m with
  | nil => rfl
  | cons a rest ih =>
    obtain ⟨ka, va⟩ := a
    by_cases h0 : ka = k0
    · subst h0
      simp only [dictInsert, beq_self_eq_true, if_true]
      by_cases hk : ka = k
      · subst hk; simp [dictGet]
      · simp [dictGet, hk]
    · simp only [dictInsert, beq_eq_false_iff_ne.mpr h0, if_false]
      by_cases hk : ka = k
      · subst hk
        have hne : ¬ (k0 = ka) := fun he => h0 he.symm
        simp [dictGet, beq_eq_false_iff_ne.mpr hne]
      · simp [dictGet, hk, ih]

theorem dictGet_foldl_insert (hashes : List HashRow) (m : List (ℤ × ℚ)) (k : ℤ) :
    dictGet (hashes.foldl (fun m p => dictInsert m p.1 p.2.1) m) k =
      match lastOffsetOf hashes k with
      | some v => some v
      | none => dictGet m k := by
  induction hashes generalizing m with
  | nil => rfl
  | cons p rest ih =>
    simp only [List.foldl_cons, lastOffsetOf]
    rw [ih]
    cases lastOffsetOf rest k with
    | some v => rfl
    | none =>
      simp only []
      rw [dictGet_dictInsert]
      cases h : (p.1 == k) <;> simp

theorem dictGet_buildHDict (hashes : List HashRow) (k : ℤ) :
    dictGet (buildHDict hashes) k = lastOffsetOf hashes k := by
  unfold buildHDict
  rw [dictGet_foldl_insert]
  cases lastOffsetOf hashes k <;> rfl

/-- Claim C5 (amended): each matching stored row is paired with the
query offset of the LAST query record carrying that hash; earlier duplicates
are overwritten. -/
theorem C5_get_matches_keeps_last_duplicate :
    ∀ (hashes : List HashRow) (db : DB),
      get_matches hashes db = get_matches_lastdup hashes db := by
  intro hashes db
  unfold get_matches get_matches_lastdup
  simp only [dictGet_buildHDict]

/-- Counterexample for claim C5 as stated: with two query records sharing hash
5 (offsets 1 then 2) and one stored row with hash 5, the emitted pair carries
offset 2 (the last record), not offset 1 (the first). -/
theorem C5_counterexample :
    get_matches [((5:ℤ), (1:ℚ), "q"), ((5:ℤ), (2:ℚ), "q")]
        ⟨[((5:ℤ), (10:ℚ), "sid")], []⟩ =
      [("sid", [((10:ℚ), (2:ℚ))])] ∧
    get_matches [((5:ℤ), (1:ℚ), "q"), ((5:ℤ), (2:ℚ), "q")]
        ⟨[((5:ℤ), (10:ℚ), "sid")], []⟩ ≠
      [("sid", [((10:ℚ), (1:ℚ))])] := by
  exact ⟨by decide, by decide⟩

/-- Claim C10: every triple emitted by `hash_points` carries the same song id
string, the one `song_in_db` also derives from the path; each triple's offset
is its anchor's time value and its hash comes from an anchor/target pair of
the peak list. -/
theorem C10_hash_points_invariants :
    ∀ (pyHash : ℚ × ℚ × ℚ → ℤ) (uuidInt : String → ℕ) (points : List Point)
      (filename : String) (db : DB),
      ((hash_points pyHash uuidInt points filename).all
        fun trip => trip.2.2 == song_id_str uuidInt filename) = true ∧
      (∀ trip ∈ hash_points pyHash uuidInt points filename,
        ∃ anchor ∈ points,
          trip.2.1 = anchor.2 ∧
          ∃ target ∈ target_zone anchor points TARGET_T TARGET_F TARGET_START,
            trip.1 = hash_point_pair pyHash anchor target) ∧
      (song_in_db uuidInt filename db = true ↔
        ∃ row ∈ db.infoTbl, row.2 = song_id_str uuidInt filename) := by
  intro pyHash uuidInt points filename db
  refine ⟨?_, ?_, ?_⟩
  · rw [List.all_eq_true]
    intro trip htrip
    simp only [hash_points, List.mem_flatMap, List.mem_map] at htrip
    obtain ⟨anchor, -, target, -, rfl⟩ := htrip
    exact beq_self_eq_true _
  · intro trip htrip
    simp only [hash_points, List.mem_flatMap, List.mem_map] at htrip
    obtain ⟨anchor, hanchor, target, htarget, rfl⟩ := htrip
    exact ⟨anchor, hanchor, rfl, target, htarget, rfl⟩
  · unfold song_in_db
    rw [List.any_eq_true]
    constructor
    · rintro ⟨row, hrow, hbeq⟩
      exact ⟨row, hrow, by simpa using hbeq⟩
    · rintro ⟨row, hrow, heq⟩
      exact ⟨row, hrow, by simpa using heq⟩

unseal Rat.add Rat.sub Rat.mul Rat.inv in
/-- Witness for C10: on a two-peak list the one emitted triple satisfies the
anchor/target decomposition, and the uniform-id check evaluates to true. -/
theorem C10_witness :
    ((hash_points (fun _ => 0) (fun _ => 7)
        [((100:ℚ), (2:ℚ)), ((300:ℚ), (5/2:ℚ))] "song.mp3").all
      fun trip => trip.2.2 == song_id_str (fun _ => 7) "song.mp3") = true ∧
    (∃ anchor ∈ [((100:ℚ), (2:ℚ)), ((300:ℚ), (5/2:ℚ))],
      (((0:ℤ), ((2:ℚ), "7")) : ℤ × ℚ × String).2.1 = anchor.2 ∧
      ∃ target ∈ target_zone anchor [((100:ℚ), (2:ℚ)), ((300:ℚ), (5/2:ℚ))]
          TARGET_T TARGET_F TARGET_START,
        (((0:ℤ), ((2:ℚ), "7")) : ℤ × ℚ × String).1 =
          hash_point_pair (fun _ => 0) anchor target) :=
  ⟨(C10_hash_points_invariants (fun _ => 0) (fun _ => 7)
      [((100:ℚ), (2:ℚ)), ((300:ℚ), (5/2:ℚ))] "song.mp3" ⟨[], []⟩).1,
   (C10_hash_points_invariants (fun _ => 0) (fun _ => 7)
      [((100:ℚ), (2:ℚ)), ((300:ℚ), (5/2:ℚ))] "song.mp3" ⟨[], []⟩).2.1
      ((0:ℤ), ((2:ℚ), "7")) (by decide)⟩

/-- Claim C2 (amended): `recognise_song` never signals "found" through its
return value.  When the info lookup for the matched song succeeds it prints
the SongInfo tuple and returns `print`'s result `None`; when the lookup yields
nothing it prints the no-result message and returns `matched_song` (which is
`None` whenever no song matched).  No path raises. -/
theorem C2_recognise_song_prints_and_returns_none :
    ∀ (hashes : List HashRow) (db : DB),
      (∀ i, get_info_for_song_id (best_match (get_matches hashes db)) db = some i →
        recognise_song hashes db = (Printed.info i, none)) ∧
      (get_info_for_song_id (best_match (get_matches hashes db)) db = none →
        recognise_song hashes db =
          (Printed.noResult, best_match (get_matches hashes db))) := by
  intro hashes db
  constructor
  · intro i hi
    simp only [recognise_song, hi]
  · intro h0
    simp only [recognise_song, h0]

unseal Rat.add Rat.sub Rat.mul Rat.inv in
/-- Witness for C2 (amended): a one-row database in which the query matches,
the info lookup succeeds, and the function prints the tuple and returns `none`. -/
theorem C2_witness :
    recognise_song [((5:ℤ), (1:ℚ), "q")]
        ⟨[((5:ℤ), (10:ℚ), "sid")], [(("A", "B", "T"), "sid")]⟩ =
      (Printed.info ("A", "B", "T"), none) :=
  (C2_recognise_song_prints_and_returns_none [((5:ℤ), (1:ℚ), "q")]
    ⟨[((5:ℤ), (10:ℚ), "sid")], [(("A", "B", "T"), "sid")]⟩).1
    ("A", "B", "T") (by decide)

unseal Rat.add Rat.sub Rat.mul Rat.inv in
/-- Counterexample for claim C2 as stated: on a database where a match is
found (`best_match` returns the song id and its SongInfo row exists), the
value `recognise_song` returns is `none` — Python's `None`, the result of
`return print(info)` — and not the SongInfo tuple. -/
theorem C2_counterexample :
    (recognise_song [((5:ℤ), (1:ℚ), "q")]
        ⟨[((5:ℤ), (10:ℚ), "sid")], [(("A", "B", "T"), "sid")]⟩).2 = none ∧
    best_match (get_matches [((5:ℤ), (1:ℚ), "q")]
        ⟨[((5:ℤ), (10:ℚ), "sid")], [(("A", "B", "T"), "sid")]⟩) = some "sid" ∧
    get_info_for_song_id (some "sid")
        ⟨[((5:ℤ), (10:ℚ), "sid")], [(("A", "B", "T"), "sid")]⟩ =
      some ("A", "B", "T") := by
  exact ⟨by decide, by decide, by decide⟩

theorem score_match_le_length (offsets : List (ℚ × ℚ)) :
    score_match offsets ≤ offsets.length := by
  unfold score_match
  cases hd : deltas offsets with
  | nil => simp
  | cons t rest =>
    have hlen : (t :: rest).length = offsets.length := by
      rw [← hd]; simp [deltas]
    apply foldl_max_le
    · exact Nat.zero_le _
    · intro x hx
      simp only [histCounts, List.mem_map, List.mem_range] at hx
      obtain ⟨i, -, rfl⟩ := hx
      calc ((t :: rest).filter (inBin _ _ i)).length
          ≤ (t :: rest).length := List.length_filter_le _ _
        _ = offsets.length := hlen

theorem best_match_go_eq_naive (ms : List (String × List (ℚ × ℚ))) :
    ∀ (matched : Option String) (best : ℕ),
      best_match_go ms matched best = best_match_naive_go ms matched best := by
  induction ms with
  | nil => intro matched best; rfl
  | cons p rest ih =>
    intro matched best
    obtain ⟨sid, offsets⟩ := p
    by_cases hskip : offsets.length < best
    · have hs : ¬ best < score_match offsets := by
        have := score_match_le_length offsets
        omega
      simp only [best_match_go, best_match_naive_go, if_pos hskip, if_neg hs]
      exact ih matched best
    · simp only [best_match_go, best_match_naive_go, if_neg hskip]
      by_cases hsc : best < score_match offsets
      · simp only [if_pos hsc]; exact ih _ _
      · simp only [if_neg hsc]; exact ih _ _

/-- Claim C7: for non-empty offset lists the histogram score never exceeds the
number of offset pairs, and consequently `best_match` with its
`len(offsets) < best_score` skip returns the same result as the naive variant
that scores every song. -/
theorem C7_best_match_skip_equivalence :
    (∀ offsets : List (ℚ × ℚ), offsets ≠ [] → score_match offsets ≤ offsets.length) ∧
    (∀ ms : List (String × List (ℚ × ℚ)), best_match ms = best_match_naive ms) := by
  refine ⟨fun offsets _ => score_match_le_length offsets, fun ms => ?_⟩
  unfold best_match best_match_naive
  exact best_match_go_eq_naive ms none 0

/-- Witness for C7 at a concrete singleton offset list and MatchSet. -/
theorem C7_witness :
    score_match [((1:ℚ), (0:ℚ))] ≤ [((1:ℚ), (0:ℚ))].length ∧
    best_match [("a", [((1:ℚ), (0:ℚ))])] = best_match_naive [("a", [((1:ℚ), (0:ℚ))])] :=
  ⟨C7_best_match_skip_equivalence.1 [((1:ℚ), (0:ℚ))] (by decide),
   C7_best_match_skip_equivalence.2 [("a", [((1:ℚ), (0:ℚ))])]⟩

theorem pyTrunc_le (q : ℚ) (h : 0 ≤ q ∨ q.den = 1) : (pyTrunc q : ℚ) ≤ q := by
  rcases h with h | h
  · rw [pyTrunc, if_pos h]
    exact Int.floor_le q
  · have hq : (q.num : ℚ) = q := (Rat.den_eq_one_iff q).mp h
    unfold pyTrunc
    split
    · rw [← hq, Int.floor_intCast]
    · rw [← hq, Int.ceil_intCast]

theorem lt_pyTrunc_add_one (q : ℚ) : q < (pyTrunc q : ℚ) + 1 := by
  unfold pyTrunc
  split
  · exact Int.lt_floor_add_one q
  · exact lt_of_le_of_lt (Int.le_ceil q) (by norm_num)

theorem pyTrunc_mono {a b : ℚ} (h : a ≤ b) : pyTrunc a ≤ pyTrunc b := by
  unfold pyTrunc
  by_cases ha : 0 ≤ a
  · rw [if_pos ha, if_pos (le_trans ha h)]
    exact Int.floor_le_floor h
  · rw [if_neg ha]
    by_cases hb : 0 ≤ b
    · rw [if_pos hb]
      refine le_trans (Int.ceil_le.mpr ?_) (Int.floor_nonneg.mpr hb)
      exact_mod_cast le_of_lt (not_le.mp ha)
    · rw [if_neg hb]
      exact Int.ceil_le_ceil h


theorem numEdges_last_cast {lo hi : ℤ} (h : lo ≤ hi) :
    ((numEdges lo hi - 1 : ℕ) : ℚ) = 2 * ((hi : ℚ) - (lo : ℚ)) + 2 := by
  have hth : (numEdges lo hi - 1 : ℕ) = (2 * (hi - lo) + 2).toNat := by
    unfold numEdges
    omega
  have hnn : (0:ℤ) ≤ 2 * (hi - lo) + 2 := by omega
  have h4 : (((2 * (hi - lo) + 2).toNat : ℕ) : ℤ) = 2 * (hi - lo) + 2 :=
    Int.toNat_of_nonneg hnn
  have h5 : (((2 * (hi - lo) + 2).toNat : ℕ) : ℚ) = ((2 * (hi - lo) + 2 : ℤ) : ℚ) := by
    exact_mod_cast congrArg (fun z : ℤ => (z : ℚ)) h4
  rw [hth, h5]
  push_cast
  ring

/-- Claim C6 (amended): `score_match` buckets the deltas into 0.5-wide bins
whose edges start at the Python `int(...)` truncation of the minimum delta and
end past the maximum delta, and returns the largest bin count; provided the
minimum delta is nonnegative or an integer, no delta falls outside the edge
range (for a negative fractional minimum the truncation rounds up and the
minimum delta falls below the first edge — see the counterexample). -/
theorem C6_score_match_histogram :
    ∀ (offsets : List (ℚ × ℚ)) (t : ℚ) (rest : List ℚ),
      deltas offsets = t :: rest →
      (0 ≤ listMin t rest ∨ (listMin t rest).den = 1) →
      (∀ d ∈ deltas offsets,
        edgeQ (pyTrunc (listMin t rest)) 0 ≤ d ∧
        d ≤ edgeQ (pyTrunc (listMin t rest))
              (numEdges (pyTrunc (listMin t rest)) (pyTrunc (listMax t rest)) - 1)) ∧
      (∀ k : ℕ, edgeQ (pyTrunc (listMin t rest)) (k + 1) -
         edgeQ (pyTrunc (listMin t rest)) k = 1 / 2) ∧
      score_match offsets =
        (histCounts (pyTrunc (listMin t rest)) (pyTrunc (listMax t rest))
          (t :: rest)).foldl max 0 := by
  intro offsets t rest hd hmin
  have hmn_le : ∀ d ∈ t :: rest, listMin t rest ≤ d := by
    intro d hdm
    rcases List.mem_cons.mp hdm with rfl | hdm
    · exact (foldl_min_le rest d).1
    · exact (foldl_min_le rest t).2 d hdm
  have hle_mx : ∀ d ∈ t :: rest, d ≤ listMax t rest := by
    intro d hdm
    rcases List.mem_cons.mp hdm with rfl | hdm
    · exact (le_foldl_max rest d).1
    · exact (le_foldl_max rest t).2 d hdm
  have hmnmx : listMin t rest ≤ listMax t rest :=
    le_trans (hmn_le t (List.mem_cons_self t rest)) (hle_mx t (List.mem_cons_self t rest))
  have hlohi : pyTrunc (listMin t rest) ≤ pyTrunc (listMax t rest) := pyTrunc_mono hmnmx
  refine ⟨?_, ?_, ?_⟩
  · intro d hdm
    rw [hd] at hdm
    refine ⟨?_, ?_⟩
    · have h1 : (pyTrunc (listMin t rest) : ℚ) ≤ listMin t rest := pyTrunc_le _ hmin
      have h2 : listMin t rest ≤ d := hmn_le d hdm
      simp only [edgeQ]
      push_cast
      linarith
    · have h2 : d ≤ listMax t rest := hle_mx d hdm
      have h3 : listMax t rest < (pyTrunc (listMax t rest) : ℚ) + 1 :=
        lt_pyTrunc_add_one _
      simp only [edgeQ]
      rw [numEdges_last_cast hlohi]
      linarith
  · intro k
    simp only [edgeQ]
    push_cast
    ring
  · unfold score_match
    rw [hd]

unseal Rat.add Rat.sub Rat.mul Rat.inv in
/-- Witness for C6 (amended) on the singleton offset list `[(1, 0)]`. -/
theorem C6_witness :
    score_match [((1:ℚ), (0:ℚ))] =
      (histCounts (pyTrunc (listMin ((1:ℚ) - 0) []))
        (pyTrunc (listMax ((1:ℚ) - 0) [])) (((1:ℚ) - 0) :: [])).foldl max 0 :=
  (C6_score_match_histogram [((1:ℚ), (0:ℚ))] ((1:ℚ) - 0) [] rfl
    (Or.inl (by decide))).2.2

unseal Rat.add Rat.sub Rat.mul Rat.inv in
/-- Counterexample for claim C6 as stated: for the single pair `(0, 2.7)` the
only delta is `-2.7`, Python's `int(-2.7)` is `-2`, so the delta lies strictly
below the first histogram edge (no bin contains it) and the returned score is
0 rather than the largest bin count of a covering histogram (which would be 1). -/
theorem C6_counterexample :
    score_match [((0:ℚ), (27/10:ℚ))] = 0 ∧
    ((0:ℚ) - 27/10) ∈ deltas [((0:ℚ), (27/10:ℚ))] ∧
    ((0:ℚ) - 27/10) < edgeQ (pyTrunc (listMin ((0:ℚ) - 27/10) [])) 0 := by
  exact ⟨by decide, by decide, by decide⟩

theorem le_dataMax (S : Spectrogram) (y x : ℕ) :
    ∀ v ∈ windowVals S y x, v ≤ dataMax S y x := by
  intro v hv
  unfold dataMax
  cases hw : windowVals S y x with
  | nil => rw [hw] at hv; cases hv
  | cons a vs =>
    rw [hw] at hv
    simp only []
    rcases List.mem_cons.mp hv with rfl | hv
    · exact (le_foldl_max vs v).1
    · exact (le_foldl_max vs a).2 v hv

theorem getv_mem_windowVals (S : Spectrogram) (y x : ℕ) {dy dx : ℤ}
    (hdy : dy ∈ winOff) (hdx : dx ∈ winOff) :
    getv S ((y : ℤ) + dy) ((x : ℤ) + dx) ∈ windowVals S y x := by
  unfold windowVals
  exact List.mem_flatMap.mpr ⟨dy, hdy, List.mem_map.mpr ⟨dx, hdx, rfl⟩⟩

theorem mem_peakCells {S : Spectrogram} {p : ℕ × ℕ} (hp : p ∈ peakCells S) :
    p.1 < S.H ∧ p.2 < S.W ∧ S.val p.1 p.2 = dataMax S p.1 p.2 := by
  unfold peakCells at hp
  rw [List.mem_flatMap] at hp
  obtain ⟨y, hy, hp⟩ := hp
  rw [List.mem_map] at hp
  obtain ⟨x, hx, rfl⟩ := hp
  rw [List.mem_filter] at hx
  exact ⟨List.mem_range.mp hy, List.mem_range.mp hx.1, of_decide_eq_true hx.2⟩

/-- Claim C8: `find_peaks` returns at most
`int((H*W / PEAK_BOX_SIZE**2) * POINT_EFFICIENCY)` peaks (that Python `int` is
a floor, since the operand is nonnegative), in non-increasing order of power,
and each returned peak's power is at least the (zero-padded) power of every
cell of its own `PEAK_BOX_SIZE` footprint. -/
theorem C8_find_peaks_budget_order_maxima :
    ∀ S : Spectrogram,
      (find_peaks S).length ≤ peak_target S ∧
      peak_target S =
        (⌊((S.H * S.W : ℕ) : ℚ) / (PEAK_BOX_SIZE : ℚ) ^ 2 * POINT_EFFICIENCY⌋).toNat ∧
      List.Sorted (valGE S) (find_peaks S) ∧
      ∀ p ∈ find_peaks S, p.1 < S.H ∧ p.2 < S.W ∧
        ∀ dy ∈ winOff, ∀ dx ∈ winOff,
          getv S ((p.1 : ℤ) + dy) ((p.2 : ℤ) + dx) ≤ S.val p.1 p.2 := by
  intro S
  have hsorted : List.Sorted (valGE S) (List.insertionSort (valGE S) (peakCells S)) := by
    haveI : IsTotal (ℕ × ℕ) (valGE S) := ⟨fun a b => le_total _ _⟩
    haveI : IsTrans (ℕ × ℕ) (valGE S) := ⟨fun _ _ _ h1 h2 => le_trans h2 h1⟩
    exact List.sorted_insertionSort (valGE S) (peakCells S)
  refine ⟨?_, ?_, ?_, ?_⟩
  · unfold find_peaks
    exact List.length_take_le _ _
  · have hnn : (0:ℚ) ≤ ((S.H * S.W : ℕ) : ℚ) / (PEAK_BOX_SIZE : ℚ) ^ 2 * POINT_EFFICIENCY := by
      have h1 : (0:ℚ) ≤ ((S.H * S.W : ℕ) : ℚ) := by positivity
      have h2 : (0:ℚ) ≤ (PEAK_BOX_SIZE : ℚ) ^ 2 := by positivity
      have h3 : (0:ℚ) ≤ POINT_EFFICIENCY := by norm_num [POINT_EFFICIENCY]
      exact mul_nonneg (div_nonneg h1 h2) h3
    unfold peak_target pyTrunc
    rw [if_pos hnn]
  · exact List.Pairwise.sublist (List.take_sublist _ _) hsorted
  · intro p hp
    have hp2 : p ∈ peakCells S :=
      (List.mem_insertionSort (valGE S)).mp (List.mem_of_mem_take hp)
    obtain ⟨hH, hW, heq⟩ := mem_peakCells hp2
    refine ⟨hH, hW, fun dy hdy dx hdx => ?_⟩
    rw [heq]
    exact le_dataMax S p.1 p.2 _ (getv_mem_windowVals S p.1 p.2 hdy hdx)

/-- Witness for C8 on a concrete 1×1 spectrogram. -/
theorem C8_witness :
    (find_peaks ⟨1, 1, fun _ _ => 0⟩).length ≤ peak_target ⟨1, 1, fun _ _ => 0⟩ :=
  (C8_find_peaks_budget_order_maxima ⟨1, 1, fun _ _ => 0⟩).1
